import Mathlib

/-!
Shallow embedding of the `gonfiguration` Go package (file `gonfiguration.go`).

The store is a Go struct holding a `map[string]string`, an optional line
validator, and a path.  A `nil` map (the disposed / uninitialized state) is
modelled by `Option`: `none` stands for the Go `nil` map, and a `nil`
receiver pointer behaves identically because every method guards on
`g == nil || g.GonfigurationValues == nil`.  The Go map is modelled as an
association list with `mapLookup` / `mapSet` / `mapErase` mirroring Go map
indexing, assignment and `delete`.  The filesystem is passed explicitly as a
pure function from paths to the file's lines (`none` when `os.Open` fails).

String helpers mirror the Go standard library functions the code uses:
`strToLower` models `strings.ToLower` (ASCII case mapping; the full Unicode
case tables are not modelled), `goSplit` models `strings.Split`, `goJoin`
models `strings.Join`, and `goAtoi` models the value returned by
`strconv.Atoi` when its error is discarded: the parsed integer on a
syntactically valid input, `0` otherwise.  Go's 64-bit `int` range clamping
on out-of-range numerals is not modelled; integers are unbounded here.
-/

/-- Error sentinels of the package (`errorGonfigurationNil`,
`errorCantOpenFile`, `errorDuplicatedEntry`, `errorKeyNotFound`).  A Go
`error` result is an `Option GonfigError`, `none` being the nil error. -/
inductive GonfigError where
  | nilStore
  | cantOpenFile
  | duplicateKey
  | keyNotFound
deriving DecidableEq

/-- ASCII lowercasing of one character, as Go's `unicode.ToLower` acts on
ASCII letters (the only case mapping modelled here). -/
def charToLower (c : Char) : Char :=
  if 65 ≤ c.toNat ∧ c.toNat ≤ 90 then Char.ofNat (c.toNat + 32) else c

/-- Models `strings.ToLower` (restricted to ASCII case mapping). -/
def strToLower (s : String) : String :=
  String.mk (s.data.map charToLower)

/-- Worker for `goSplit`: fuel-indexed scan so the recursion is structural.
The caller supplies fuel `≥` the input length, which is enough because the
separator is non-empty, so every step consumes at least one character. -/
def goSplitAux (sep : List Char) : Nat → List Char → List Char → List (List Char)
  | 0, l, acc => [acc.reverse ++ l]
  | _ + 1, [], acc => [acc.reverse]
  | fuel + 1, c :: cs, acc =>
    if sep.isPrefixOf (c :: cs) then
      acc.reverse :: goSplitAux sep fuel (List.drop sep.length (c :: cs)) []
    else
      goSplitAux sep fuel cs (c :: acc)

/-- Models `strings.Split s sep`: with an empty separator Go splits the
string into its characters, otherwise it cuts at every occurrence of
`sep`. -/
def goSplit (s sep : String) : List String :=
  if sep.data = [] then s.data.map (fun c => String.mk [c])
  else (goSplitAux sep.data (s.data.length + 1) s.data []).map String.mk

/-- Models `strings.Join elems sep`. -/
def goJoin (elems : List String) (sep : String) : String :=
  match elems with
  | [] => ""
  | [p] => p
  | p :: ps => p ++ sep ++ goJoin ps sep

/-- Non-empty all-decimal-digit character list. -/
def goAtoiDigits (l : List Char) : Bool :=
  !l.isEmpty && l.all (fun c => 48 ≤ c.toNat && c.toNat ≤ 57)

/-- Numeric value of a decimal digit list. -/
def goAtoiDigitsVal (l : List Char) : Nat :=
  l.foldl (fun acc c => acc * 10 + (c.toNat - 48)) 0

/-- Whether `strconv.Atoi` accepts the string: an optional sign followed by
at least one decimal digit. -/
def goAtoiValid (s : String) : Bool :=
  match s.data with
  | '+' :: rest => goAtoiDigits rest
  | '-' :: rest => goAtoiDigits rest
  | l => goAtoiDigits l

/-- Signed value read off the digits (meaningful when `goAtoiValid`). -/
def goAtoiParsed (s : String) : Int :=
  match s.data with
  | '+' :: rest => (goAtoiDigitsVal rest : Int)
  | '-' :: rest => -(goAtoiDigitsVal rest : Int)
  | l => (goAtoiDigitsVal l : Int)

/-- Value returned by `strconv.Atoi` when the accompanying error is
discarded, as all call sites in the package do: the parsed integer on a
valid numeral and `0` on a syntax error. -/
def goAtoi (s : String) : Int :=
  if goAtoiValid s then goAtoiParsed s else 0

/-- Go map indexing `m[k]` (presence aside). -/
def mapLookup : List (String × String) → String → Option String
  | [], _ => none
  | (k0, v0) :: rest, k => if k0 = k then some v0 else mapLookup rest k

/-- Go map assignment `m[k] = v`: overwrite in place or append. -/
def mapSet : List (String × String) → String → String → List (String × String)
  | [], k, v => [(k, v)]
  | (k0, v0) :: rest, k, v =>
    if k0 = k then (k0, v) :: rest else (k0, v0) :: mapSet rest k v

/-- Go `delete(m, k)`. -/
def mapErase : List (String × String) → String → List (String × String)
  | [], _ => []
  | (k0, v0) :: rest, k =>
    if k0 = k then mapErase rest k else (k0, v0) :: mapErase rest k

/-- Models `strings.HasPrefix line "#"`. -/
def startsWithHash (s : String) : Bool :=
  match s.data with
  | '#' :: _ => true
  | _ => false

/-- The `Gonfiguration` struct.  `GonfigurationValues = none` is the Go
`nil` map. -/
structure Gonfiguration where
  GonfigurationValues : Option (List (String × String))
  ValidateConfigLine : Option (String → Bool)
  Path : String

/-- Method `isGonfigurationLine`: the custom validator when set, otherwise
the default rule (not a `#` comment, non-empty, contains `=`). -/
def Gonfiguration.isGonfigurationLine (g : Gonfiguration) (line : String) : Bool :=
  match g.ValidateConfigLine with
  | some f => f line
  | none => !startsWithHash line && !(line == "") && line.data.contains '='

/-- Method `Contains`. -/
def Gonfiguration.Contains (g : Gonfiguration) (key : String) :
    Bool × Option GonfigError :=
  match g.GonfigurationValues with
  | none => (false, some .nilStore)
  | some m => ((mapLookup m (strToLower key)).isSome, none)

/-- Method `AddNew`: insert only when the lowercased key is absent. -/
def Gonfiguration.AddNew (g : Gonfiguration) (key value : String) :
    Gonfiguration × Option GonfigError :=
  match g.GonfigurationValues with
  | none => (g, some .nilStore)
  | some m =>
    if (g.Contains key).fst then (g, some .duplicateKey)
    else ({ g with GonfigurationValues := some (mapSet m (strToLower key) value) }, none)

/-- Method `Update`: unconditional upsert under the lowercased key. -/
def Gonfiguration.Update (g : Gonfiguration) (key value : String) :
    Gonfiguration × Option GonfigError :=
  match g.GonfigurationValues with
  | none => (g, some .nilStore)
  | some m =>
    ({ g with GonfigurationValues := some (mapSet m (strToLower key) value) }, none)

/-- Method `Delete`. -/
def Gonfiguration.Delete (g : Gonfiguration) (key : String) :
    Gonfiguration × Option GonfigError :=
  match g.GonfigurationValues with
  | none => (g, some .nilStore)
  | some m =>
    if (g.Contains key).fst then
      ({ g with GonfigurationValues := some (mapErase m (strToLower key)) }, none)
    else (g, some .keyNotFound)

/-- Effect of `Clear`'s range-and-delete loop on the map: the loop deletes
`strings.ToLower(key)` for every key ranged over, which removes exactly the
keys equal to their own lowercasing; any key that is not already lowercase
survives (no such key ever arises through the package's own operations). -/
def clearMap (m : List (String × String)) : List (String × String) :=
  m.filter (fun p => !(strToLower p.fst == p.fst))

/-- Method `Clear`. -/
def Gonfiguration.Clear (g : Gonfiguration) : Gonfiguration × Option GonfigError :=
  match g.GonfigurationValues with
  | none => (g, some .nilStore)
  | some m => ({ g with GonfigurationValues := some (clearMap m) }, none)

/-- Method `Len`. -/
def Gonfiguration.Len (g : Gonfiguration) : Nat × Option GonfigError :=
  match g.GonfigurationValues with
  | none => (0, some .nilStore)
  | some m => (m.length, none)

/-- Method `Map`: returns a pointer to the live map (`none` models the nil
pointer returned in the error case). -/
def Gonfiguration.Map (g : Gonfiguration) :
    Option (List (String × String)) × Option GonfigError :=
  match g.GonfigurationValues with
  | none => (none, some .nilStore)
  | some m => (some m, none)

/-- Method `Dispose`: clears the map (result immediately discarded) and nils
out every field. -/
def Gonfiguration.Dispose (_g : Gonfiguration) : Gonfiguration :=
  { GonfigurationValues := none, ValidateConfigLine := none, Path := "" }

/-- Method `GetParamAsString`. -/
def Gonfiguration.GetParamAsString (g : Gonfiguration) (key dflt : String) :
    String × Option GonfigError :=
  match g.GonfigurationValues with
  | none => ("", some .nilStore)
  | some m =>
    match mapLookup m (strToLower key) with
    | none => (dflt, some .keyNotFound)
    | some v => (v, none)

/-- Method `GetParamAsStringArray` (`none` models a nil Go slice). -/
def Gonfiguration.GetParamAsStringArray (g : Gonfiguration) (key dflt sep : String) :
    Option (List String) × Option GonfigError :=
  match g.GonfigurationValues with
  | none => (none, some .nilStore)
  | some m =>
    match mapLookup m (strToLower key) with
    | none => (some (goSplit dflt sep), some .keyNotFound)
    | some v => (some (goSplit v sep), none)

/-- Method `GetParamAsInt`: the `strconv.Atoi` error is discarded. -/
def Gonfiguration.GetParamAsInt (g : Gonfiguration) (key : String) (dflt : Int) :
    Int × Option GonfigError :=
  match g.GonfigurationValues with
  | none => (0, some .nilStore)
  | some m =>
    match mapLookup m (strToLower key) with
    | none => (dflt, some .keyNotFound)
    | some v => (goAtoi v, none)

/-- Method `GetParamAsIntArray`: delegates to `GetParamAsStringArray` (whose
result is never the nil slice once the map is initialized) and converts each
element with the error-discarding `strconv.Atoi`. -/
def Gonfiguration.GetParamAsIntArray (g : Gonfiguration) (key dflt sep : String) :
    Option (List Int) × Option GonfigError :=
  match g.GonfigurationValues with
  | none => (none, some .nilStore)
  | some _ =>
    let r := g.GetParamAsStringArray key dflt sep
    (some ((r.fst.getD []).map goAtoi), r.snd)

/-- Method `GetParamAsBool`. -/
def Gonfiguration.GetParamAsBool (g : Gonfiguration) (key : String) (dflt : Bool) :
    Bool × Option GonfigError :=
  match g.GonfigurationValues with
  | none => (false, some .nilStore)
  | some m =>
    match mapLookup m (strToLower key) with
    | none => (dflt, some .keyNotFound)
    | some v => (v == "true" || v == "1", none)

/-- The local `key` of the scanner loop: `strings.Split(line, "=")[0]`, the
segment of the line before its first `=` (the whole line when it has
none). -/
def lineKey (line : String) : String :=
  (goSplit line "=").headD ""

/-- The local `value` of the scanner loop joined back at the `AddNew` call
site: `strings.Join(strings.Split(line, "=")[1:], "=")`, everything after
the first `=` rejoined with `=`. -/
def lineValue (line : String) : String :=
  goJoin ((goSplit line "=").tail) "="

/-- The scanner loop of `LoadFromPath`, one iteration per line of the file.
The errors of the `Contains` and `AddNew` calls are discarded, exactly as in
the Go code. -/
def Gonfiguration.loadLines : Gonfiguration → List String → Gonfiguration × Option GonfigError
  | g, [] => (g, none)
  | g, line :: rest =>
    if g.isGonfigurationLine line then
      if (g.Contains (lineKey line)).fst then (g, some .duplicateKey)
      else
        Gonfiguration.loadLines (g.AddNew (strToLower (lineKey line)) (lineValue line)).fst rest
    else Gonfiguration.loadLines g rest

/-- Method `LoadFromPath`: stores the path, opens the file (`fs` is the
ambient filesystem), and runs the scanner loop. -/
def Gonfiguration.LoadFromPath (g : Gonfiguration)
    (fs : String → Option (List String)) (path : String) :
    Gonfiguration × Option GonfigError :=
  match fs path with
  | none => ({ g with Path := path }, some .cantOpenFile)
  | some lines => Gonfiguration.loadLines { g with Path := path } lines

/-- Function `New`: fresh store with an empty map, then a full load. -/
def Gonfiguration.New (fs : String → Option (List String)) (path : String)
    (validateFunction : Option (String → Bool)) :
    Gonfiguration × Option GonfigError :=
  Gonfiguration.LoadFromPath
    { GonfigurationValues := some [], ValidateConfigLine := validateFunction, Path := path }
    fs path

/-- Method `Reload`: nil-guard, then `Clear` (error discarded) followed by
`LoadFromPath` on the stored path. -/
def Gonfiguration.Reload (g : Gonfiguration) (fs : String → Option (List String)) :
    Gonfiguration × Option GonfigError :=
  match g.GonfigurationValues with
  | none => (g, some .nilStore)
  | some _ => (g.Clear).fst.LoadFromPath fs g.Path

/-- The sequence the specification says `Reload` is equivalent to:
`Clear()` followed by `LoadFromPath(sourcePath)`, reported with the load's
result.  Written from the spec's words, to be compared with `Reload`. -/
def Gonfiguration.clearThenLoad (g : Gonfiguration)
    (fs : String → Option (List String)) : Gonfiguration × Option GonfigError :=
  (g.Clear).fst.LoadFromPath fs g.Path

/-- The value stored under key `k` (read without case normalization; the
store's own accessors lowercase their argument before calling this). -/
def Gonfiguration.lookupIn (g : Gonfiguration) (k : String) : Option String :=
  match g.GonfigurationValues with
  | none => none
  | some m => mapLookup m k

/-- Every key of the association list is its own lowercasing. -/
def mapKeysLower (m : List (String × String)) : Bool :=
  m.all (fun p => strToLower p.fst == p.fst)

/-- Every key stored in the map (when there is one) is lowercase. -/
def Gonfiguration.keysLower (g : Gonfiguration) : Bool :=
  match g.GonfigurationValues with
  | none => true
  | some m => mapKeysLower m

/-- A filesystem whose one file holds the lines `a=1` and `A=2`: the two
accepted lines collide on the lowercased key `a`, so a full load fails with
the DuplicateKey error after the first entry is already stored. -/
def fsDup : String → Option (List String) :=
  fun _ => some ["a=1", "A=2"]

/-! Helper lemmas about the string and map models. -/

theorem charToLower_toNat_ofNat (n : Nat) (h : n < 55296) : (Char.ofNat n).toNat = n := by
  rw [Char.ofNat, dif_pos (Or.inl h)]
  simp [Char.ofNatAux, Char.toNat, UInt32.toNat, BitVec.toNat_ofNatLt]

theorem charToLower_idem (c : Char) : charToLower (charToLower c) = charToLower c := by
  unfold charToLower
  by_cases h : 65 ≤ c.toNat ∧ c.toNat ≤ 90
  · rw [if_pos h]
    have ht : (Char.ofNat (c.toNat + 32)).toNat = c.toNat + 32 :=
      charToLower_toNat_ofNat _ (by omega)
    rw [if_neg (by omega)]
  · rw [if_neg h, if_neg h]

theorem strToLower_idem (s : String) : strToLower (strToLower s) = strToLower s := by
  unfold strToLower
  simp only [List.map_map]
  congr 1
  exact List.map_congr_left (fun c _ => charToLower_idem c)

theorem mapLookup_set_self (m : List (String × String)) (k v : String) :
    mapLookup (mapSet m k v) k = some v := by
  induction m with
  | nil => simp [mapSet, mapLookup]
  | cons p rest ih =>
    obtain ⟨k0, v0⟩ := p
    by_cases h : k0 = k
    · simp [mapSet, h, mapLookup]
    · simp [mapSet, h, mapLookup, ih]

theorem mapLookup_set_ne (m : List (String × String)) (k v k' : String) (h : k' ≠ k) :
    mapLookup (mapSet m k v) k' = mapLookup m k' := by
  have h' : k ≠ k' := Ne.symm h
  induction m with
  | nil => simp [mapSet, mapLookup, h']
  | cons p rest ih =>
    obtain ⟨k0, v0⟩ := p
    by_cases h0 : k0 = k
    · subst h0
      simp [mapSet, mapLookup, h']
    · simp [mapSet, h0, mapLookup, ih]

theorem mem_mapSet (m : List (String × String)) (k v : String) (p : String × String)
    (hp : p ∈ mapSet m k v) : p.fst = k ∨ p ∈ m := by
  induction m with
  | nil =>
    simp [mapSet] at hp
    subst hp
    exact Or.inl rfl
  | cons q rest ih =>
    obtain ⟨k0, v0⟩ := q
    by_cases h0 : k0 = k
    · subst h0
      simp [mapSet] at hp
      rcases hp with hp | hp
      · subst hp; exact Or.inl rfl
      · exact Or.inr (List.mem_cons_of_mem _ hp)
    · simp [mapSet, h0] at hp
      rcases hp with hp | hp
      · subst hp; exact Or.inr (List.mem_cons_self _ _)
      · rcases ih hp with h | h
        · exact Or.inl h
        · exact Or.inr (List.mem_cons_of_mem _ h)

theorem mem_mapErase (m : List (String × String)) (k : String) (p : String × String)
    (hp : p ∈ mapErase m k) : p ∈ m := by
  induction m with
  | nil => simp [mapErase] at hp
  | cons q rest ih =>
    obtain ⟨k0, v0⟩ := q
    by_cases h0 : k0 = k
    · simp [mapErase, h0] at hp
      exact List.mem_cons_of_mem _ (ih hp)
    · simp [mapErase, h0] at hp
      rcases hp with hp | hp
      · subst hp; exact List.mem_cons_self _ _
      · exact List.mem_cons_of_mem _ (ih hp)

theorem mapKeysLower_set (m : List (String × String)) (k v : String)
    (hm : mapKeysLower m = true) (hk : strToLower k = k) :
    mapKeysLower (mapSet m k v) = true := by
  rw [mapKeysLower, List.all_eq_true]
  intro p hp
  rcases mem_mapSet m k v p hp with h | h
  · rw [h]; exact beq_iff_eq.mpr hk
  · rw [mapKeysLower, List.all_eq_true] at hm
    exact hm p h

theorem mapKeysLower_erase (m : List (String × String)) (k : String)
    (hm : mapKeysLower m = true) : mapKeysLower (mapErase m k) = true := by
  rw [mapKeysLower, List.all_eq_true]
  intro p hp
  rw [mapKeysLower, List.all_eq_true] at hm
  exact hm p (mem_mapErase m k p hp)

theorem clearMap_of_keysLower (m : List (String × String))
    (hm : mapKeysLower m = true) : clearMap m = [] := by
  rw [mapKeysLower, List.all_eq_true] at hm
  rw [clearMap, List.filter_eq_nil_iff]
  intro p hp
  simp [hm p hp]

theorem mapKeysLower_clearMap (m : List (String × String))
    (hm : mapKeysLower m = true) : mapKeysLower (clearMap m) = true := by
  rw [clearMap_of_keysLower m hm]
  rfl

/-! Field-preservation lemmas for the store operations. -/

theorem addNew_fields (g : Gonfiguration) (k v : String) :
    (g.AddNew k v).fst.ValidateConfigLine = g.ValidateConfigLine ∧
    (g.AddNew k v).fst.Path = g.Path ∧
    (g.AddNew k v).fst.GonfigurationValues.isSome = g.GonfigurationValues.isSome := by
  unfold Gonfiguration.AddNew
  cases hg : g.GonfigurationValues with
  | none => simp [hg]
  | some m =>
    by_cases hc : (g.Contains k).fst
    · simp [hg, hc]
    · simp [hg, hc]

theorem isGonfigurationLine_congr (g1 g2 : Gonfiguration)
    (h : g1.ValidateConfigLine = g2.ValidateConfigLine) (line : String) :
    g1.isGonfigurationLine line = g2.isGonfigurationLine line := by
  unfold Gonfiguration.isGonfigurationLine
  rw [h]

theorem loadLines_validator (ls : List String) (g : Gonfiguration) :
    (Gonfiguration.loadLines g ls).fst.ValidateConfigLine = g.ValidateConfigLine := by
  induction ls generalizing g with
  | nil => rfl
  | cons line rest ih =>
    rw [Gonfiguration.loadLines]
    by_cases hacc : g.isGonfigurationLine line
    · rw [if_pos hacc]
      by_cases hc : (g.Contains (lineKey line)).fst
      · rw [if_pos hc]
      · rw [if_neg hc, ih]
        exact (addNew_fields g _ _).1
    · rw [if_neg hacc, ih]

theorem loadLines_path (ls : List String) (g : Gonfiguration) :
    (Gonfiguration.loadLines g ls).fst.Path = g.Path := by
  induction ls generalizing g with
  | nil => rfl
  | cons line rest ih =>
    rw [Gonfiguration.loadLines]
    by_cases hacc : g.isGonfigurationLine line
    · rw [if_pos hacc]
      by_cases hc : (g.Contains (lineKey line)).fst
      · rw [if_pos hc]
      · rw [if_neg hc, ih]
        exact (addNew_fields g _ _).2.1
    · rw [if_neg hacc, ih]

theorem loadLines_isSome (ls : List String) (g : Gonfiguration) :
    (Gonfiguration.loadLines g ls).fst.GonfigurationValues.isSome
      = g.GonfigurationValues.isSome := by
  induction ls generalizing g with
  | nil => rfl
  | cons line rest ih =>
    rw [Gonfiguration.loadLines]
    by_cases hacc : g.isGonfigurationLine line
    · rw [if_pos hacc]
      by_cases hc : (g.Contains (lineKey line)).fst
      · rw [if_pos hc]
      · rw [if_neg hc, ih]
        exact (addNew_fields g _ _).2.2
    · rw [if_neg hacc, ih]

theorem addNew_lookup_preserved (g : Gonfiguration) (k' v' k v : String)
    (h : g.lookupIn k = some v) : (g.AddNew k' v').fst.lookupIn k = some v := by
  cases hg : g.GonfigurationValues with
  | none => simp [Gonfiguration.lookupIn, hg] at h
  | some m =>
    simp only [Gonfiguration.lookupIn, hg] at h
    by_cases hc : (g.Contains k').fst
    · simp [Gonfiguration.AddNew, hg, hc, Gonfiguration.lookupIn]
      exact h
    · have hnone : mapLookup m (strToLower k') = none := by
        cases hml : mapLookup m (strToLower k') with
        | none => rfl
        | some w => simp [Gonfiguration.Contains, hg, hml] at hc
      have hkne : k ≠ strToLower k' := by
        intro he
        rw [he, hnone] at h
        exact Option.noConfusion h
      simp only [Gonfiguration.AddNew, Gonfiguration.Contains, hg, hnone, Option.isSome_none,
        Bool.false_eq_true, if_false, Gonfiguration.lookupIn]
      rw [mapLookup_set_ne _ _ _ _ hkne]
      exact h

theorem addNew_lookup_isSome (g : Gonfiguration) (k' v' k : String)
    (h : (g.lookupIn k).isSome = true) :
    ((g.AddNew k' v').fst.lookupIn k).isSome = true := by
  cases hv : g.lookupIn k with
  | none => rw [hv] at h; exact absurd h (by simp)
  | some v => rw [addNew_lookup_preserved g k' v' k v hv]; rfl

theorem loadLines_lookup_preserved (ls : List String) (g : Gonfiguration) (k v : String)
    (h : g.lookupIn k = some v) :
    (Gonfiguration.loadLines g ls).fst.lookupIn k = some v := by
  induction ls generalizing g with
  | nil => exact h
  | cons line rest ih =>
    rw [Gonfiguration.loadLines]
    by_cases hacc : g.isGonfigurationLine line
    · rw [if_pos hacc]
      by_cases hc : (g.Contains (lineKey line)).fst
      · rw [if_pos hc]; exact h
      · rw [if_neg hc]
        exact ih _ (addNew_lookup_preserved g _ _ k v h)
    · rw [if_neg hacc]
      exact ih _ h

theorem addNew_keysLower (g : Gonfiguration) (k v : String)
    (h : g.keysLower = true) : (g.AddNew k v).fst.keysLower = true := by
  cases hg : g.GonfigurationValues with
  | none => simp [Gonfiguration.AddNew, hg]; exact h
  | some m =>
    simp only [Gonfiguration.keysLower, hg] at h
    by_cases hc : (g.Contains k).fst
    · simp only [Gonfiguration.AddNew, hg, hc, if_true, Gonfiguration.keysLower]
      exact h
    · simp only [Gonfiguration.AddNew, hg, hc, Bool.false_eq_true, if_false,
        Gonfiguration.keysLower]
      exact mapKeysLower_set m _ v h (strToLower_idem k)

theorem loadLines_keysLower (ls : List String) (g : Gonfiguration)
    (h : g.keysLower = true) :
    (Gonfiguration.loadLines g ls).fst.keysLower = true := by
  induction ls generalizing g with
  | nil => exact h
  | cons line rest ih =>
    rw [Gonfiguration.loadLines]
    by_cases hacc : g.isGonfigurationLine line
    · rw [if_pos hacc]
      by_cases hc : (g.Contains (lineKey line)).fst
      · rw [if_pos hc]; exact h
      · rw [if_neg hc]
        exact ih _ (addNew_keysLower g _ _ h)
    · rw [if_neg hacc]
      exact ih _ h

theorem loadLines_append (l1 l2 : List String) (g : Gonfiguration) :
    Gonfiguration.loadLines g (l1 ++ l2) =
      if (Gonfiguration.loadLines g l1).snd = none then
        Gonfiguration.loadLines (Gonfiguration.loadLines g l1).fst l2
      else Gonfiguration.loadLines g l1 := by
  induction l1 generalizing g with
  | nil => simp [Gonfiguration.loadLines]
  | cons line rest ih =>
    rw [List.cons_append, Gonfiguration.loadLines]
    by_cases hacc : g.isGonfigurationLine line
    · by_cases hc : (g.Contains (lineKey line)).fst
      · simp only [if_pos hacc, if_pos hc, Gonfiguration.loadLines]
        simp
      · simp only [if_pos hacc, if_neg hc]
        rw [ih]
        conv_rhs => rw [Gonfiguration.loadLines]
        simp only [if_pos hacc, if_neg hc]
    · simp only [if_neg hacc]
      rw [ih]
      conv_rhs => rw [Gonfiguration.loadLines]
      simp only [if_neg hacc]

theorem loadLines_snd (ls : List String) (g : Gonfiguration) :
    (Gonfiguration.loadLines g ls).snd = none ∨
      (Gonfiguration.loadLines g ls).snd = some .duplicateKey := by
  induction ls generalizing g with
  | nil => exact Or.inl rfl
  | cons line rest ih =>
    rw [Gonfiguration.loadLines]
    by_cases hacc : g.isGonfigurationLine line
    · by_cases hc : (g.Contains (lineKey line)).fst
      · rw [if_pos hacc, if_pos hc]
        exact Or.inr rfl
      · rw [if_pos hacc, if_neg hc]
        exact ih _
    · rw [if_neg hacc]
      exact ih _

theorem loadLines_key_present (ls : List String) (g : Gonfiguration) (a : String)
    (ha : a ∈ ls) (hacc : g.isGonfigurationLine a = true)
    (hinit : g.GonfigurationValues.isSome = true)
    (hok : (Gonfiguration.loadLines g ls).snd = none) :
    ((Gonfiguration.loadLines g ls).fst.lookupIn (strToLower (lineKey a))).isSome = true := by
  induction ls generalizing g with
  | nil => exact absurd ha (List.not_mem_nil a)
  | cons line rest ih =>
    rw [Gonfiguration.loadLines] at hok ⊢
    rcases List.mem_cons.mp ha with heq | hmem
    · subst heq
      rw [if_pos hacc] at hok ⊢
      by_cases hc : (g.Contains (lineKey a)).fst
      · rw [if_pos hc] at hok
        exact absurd hok (by simp)
      · rw [if_neg hc] at hok ⊢
        cases hg : g.GonfigurationValues with
        | none => rw [hg] at hinit; exact absurd hinit (by simp)
        | some m =>
          have hnone : mapLookup m (strToLower (lineKey a)) = none := by
            cases hml : mapLookup m (strToLower (lineKey a)) with
            | none => rfl
            | some w => simp [Gonfiguration.Contains, hg, hml] at hc
          have hstep : (g.AddNew (strToLower (lineKey a)) (lineValue a)).fst.lookupIn
              (strToLower (lineKey a)) = some (lineValue a) := by
            simp only [Gonfiguration.AddNew, Gonfiguration.Contains, hg, strToLower_idem,
              hnone, Option.isSome_none, Bool.false_eq_true, if_false, Gonfiguration.lookupIn]
            exact mapLookup_set_self m _ _
          rw [loadLines_lookup_preserved rest _ _ _ hstep]
          rfl
    · by_cases haccl : g.isGonfigurationLine line
      · rw [if_pos haccl] at hok ⊢
        by_cases hc : (g.Contains (lineKey line)).fst
        · rw [if_pos hc] at hok
          exact absurd hok (by simp)
        · rw [if_neg hc] at hok ⊢
          refine ih _ hmem ?_ ?_ hok
          · rw [isGonfigurationLine_congr _ g (addNew_fields g _ _).1]
            exact hacc
          · rw [(addNew_fields g _ _).2.2]
            exact hinit
      · rw [if_neg haccl] at hok ⊢
        exact ih _ hmem hacc hinit hok

theorem loadLines_dup (ls : List String) (g : Gonfiguration) (d : String)
    (hd : d ∈ ls) (hacc : g.isGonfigurationLine d = true)
    (hpres : (g.lookupIn (strToLower (lineKey d))).isSome = true) :
    (Gonfiguration.loadLines g ls).snd = some .duplicateKey := by
  induction ls generalizing g with
  | nil => exact absurd hd (List.not_mem_nil d)
  | cons line rest ih =>
    rw [Gonfiguration.loadLines]
    rcases List.mem_cons.mp hd with heq | hmem
    · subst heq
      rw [if_pos hacc]
      have hc : (g.Contains (lineKey d)).fst = true := by
        cases hg : g.GonfigurationValues with
        | none => simp [Gonfiguration.lookupIn, hg] at hpres
        | some m =>
          simp only [Gonfiguration.lookupIn, hg] at hpres
          simp [Gonfiguration.Contains, hg, hpres]
      rw [if_pos hc]
    · by_cases haccl : g.isGonfigurationLine line
      · rw [if_pos haccl]
        by_cases hc : (g.Contains (lineKey line)).fst
        · rw [if_pos hc]
        · rw [if_neg hc]
          refine ih _ hmem ?_ (addNew_lookup_isSome g _ _ _ hpres)
          rw [isGonfigurationLine_congr _ g (addNew_fields g _ _).1]
          exact hacc
      · rw [if_neg haccl]
        exact ih _ hmem hacc hpres

/-! Claim theorems. -/

/-- C1: for every line accepted by the validator during load, the stored
entry has key equal to the segment of the line before the first `=`
lowercased, and value equal to all remaining segments rejoined with `=`:
when the scanner reaches an accepted `line` whose lowercased key is not yet
present, the resulting store maps that lowercased key to the rejoined
remainder of the line, whatever lines follow. -/
theorem claim1_load_line_entry (g : Gonfiguration) (m : List (String × String))
    (line : String) (rest : List String)
    (hm : g.GonfigurationValues = some m)
    (hacc : g.isGonfigurationLine line = true)
    (habs : mapLookup m (strToLower (lineKey line)) = none) :
    (Gonfiguration.loadLines g (line :: rest)).fst.lookupIn (strToLower (lineKey line))
      = some (lineValue line) := by
  rw [Gonfiguration.loadLines, if_pos hacc]
  have hc : ¬((g.Contains (lineKey line)).fst = true) := by
    simp [Gonfiguration.Contains, hm, habs]
  rw [if_neg hc]
  have hstep : (g.AddNew (strToLower (lineKey line)) (lineValue line)).fst.lookupIn
      (strToLower (lineKey line)) = some (lineValue line) := by
    simp only [Gonfiguration.AddNew, Gonfiguration.Contains, hm, strToLower_idem, habs,
      Option.isSome_none, Bool.false_eq_true, if_false, Gonfiguration.lookupIn]
    exact mapLookup_set_self m _ _
  exact loadLines_lookup_preserved rest _ _ _ hstep

/-- C1 witness: the line `welcome.message=a=b=c` yields value `a=b=c` for
key `welcome.message`. -/
theorem claim1_load_line_entry_witness :
    (Gonfiguration.loadLines ⟨some [], none, "cfg"⟩ ["welcome.message=a=b=c"]).fst.lookupIn
      "welcome.message" = some "a=b=c" :=
  claim1_load_line_entry ⟨some [], none, "cfg"⟩ [] "welcome.message=a=b=c" []
    rfl (by decide) rfl

/-- C4: on an initialized store, a getter for an absent (lowercased) key
returns the caller-supplied default together with the KeyNotFound error:
`GetParamAsString` returns the default itself, `GetParamAsStringArray`
returns the default split on the separator. -/
theorem claim4_missing_key_defaults (g : Gonfiguration) (m : List (String × String))
    (K D sep : String) (hm : g.GonfigurationValues = some m)
    (habs : mapLookup m (strToLower K) = none) :
    g.GetParamAsString K D = (D, some .keyNotFound)
  ∧ g.GetParamAsStringArray K D sep = (some (goSplit D sep), some .keyNotFound) := by
  constructor
  · simp [Gonfiguration.GetParamAsString, hm, habs]
  · simp [Gonfiguration.GetParamAsStringArray, hm, habs]

/-- C4 witness: on the empty store,
`GetParamAsStringArray "missing" "d1,d2" ","` returns
`(["d1", "d2"], KeyNotFound)` and `GetParamAsString` the plain default. -/
theorem claim4_missing_key_defaults_witness :
    (⟨some [], none, "p"⟩ : Gonfiguration).GetParamAsString "missing" "d1,d2"
      = ("d1,d2", some .keyNotFound)
  ∧ (⟨some [], none, "p"⟩ : Gonfiguration).GetParamAsStringArray "missing" "d1,d2" ","
      = (some ["d1", "d2"], some .keyNotFound) :=
  claim4_missing_key_defaults ⟨some [], none, "p"⟩ [] "missing" "d1,d2" "," rfl rfl

/-- C5: `AddNew` with a key equal (up to case) to one already present fails
with the DuplicateKey error and returns the store completely unchanged, so
the stored value is intact afterwards; and (third conjunct) `AddNew` does
insert whenever the lowercased key is absent. -/
theorem claim5_addnew_duplicate (g : Gonfiguration) (m : List (String × String))
    (K K' V v0 : String) (hm : g.GonfigurationValues = some m)
    (hcase : strToLower K' = strToLower K)
    (hv : mapLookup m (strToLower K) = some v0) :
    g.AddNew K' V = (g, some .duplicateKey)
  ∧ (g.AddNew K' V).fst.lookupIn (strToLower K) = some v0
  ∧ (∀ (g2 : Gonfiguration) (m2 : List (String × String)) (k v : String),
      g2.GonfigurationValues = some m2 → mapLookup m2 (strToLower k) = none →
      g2.AddNew k v
        = ({ g2 with GonfigurationValues := some (mapSet m2 (strToLower k) v) }, none)) := by
  have h1 : g.AddNew K' V = (g, some .duplicateKey) := by
    simp [Gonfiguration.AddNew, Gonfiguration.Contains, hm, hcase, hv]
  refine ⟨h1, ?_, ?_⟩
  · rw [h1]
    simp [Gonfiguration.lookupIn, hm, hv]
  · intro g2 m2 k v hm2 habs2
    simp [Gonfiguration.AddNew, Gonfiguration.Contains, hm2, habs2]

/-- C5 witness: with `chat.asymetric` stored, `AddNew "Chat.ASYMETRIC"`
fails with DuplicateKey and the original value is intact. -/
theorem claim5_addnew_duplicate_witness :
    (⟨some [("chat.asymetric", "true")], none, "p"⟩ : Gonfiguration).AddNew
        "Chat.ASYMETRIC" "false" = (⟨some [("chat.asymetric", "true")], none, "p"⟩, some .duplicateKey)
  ∧ ((⟨some [("chat.asymetric", "true")], none, "p"⟩ : Gonfiguration).AddNew
        "Chat.ASYMETRIC" "false").fst.lookupIn "chat.asymetric" = some "true"
  ∧ (∀ (g2 : Gonfiguration) (m2 : List (String × String)) (k v : String),
      g2.GonfigurationValues = some m2 → mapLookup m2 (strToLower k) = none →
      g2.AddNew k v
        = ({ g2 with GonfigurationValues := some (mapSet m2 (strToLower k) v) }, none)) :=
  claim5_addnew_duplicate ⟨some [("chat.asymetric", "true")], none, "p"⟩
    [("chat.asymetric", "true")] "chat.asymetric" "Chat.ASYMETRIC" "false" "true"
    rfl (by decide) (by decide)

/-- C7: `GetParamAsInt` on a stored value that is not a valid integer
numeral returns `(0, nil)`: the parse failure is swallowed and no error is
reported. -/
theorem claim7_int_parse_swallowed (g : Gonfiguration) (m : List (String × String))
    (K v : String) (D : Int) (hm : g.GonfigurationValues = some m)
    (hv : mapLookup m (strToLower K) = some v)
    (hbad : goAtoiValid v = false) :
    g.GetParamAsInt K D = (0, none) := by
  simp [Gonfiguration.GetParamAsInt, hm, hv, goAtoi, hbad]

/-- C7 witness: a store holding `k = abc` returns `(0, nil)` from
`GetParamAsInt "k" 9`. -/
theorem claim7_int_parse_swallowed_witness :
    (⟨some [("k", "abc")], none, "p"⟩ : Gonfiguration).GetParamAsInt "k" 9 = (0, none) :=
  claim7_int_parse_swallowed ⟨some [("k", "abc")], none, "p"⟩ [("k", "abc")]
    "k" "abc" 9 rfl (by decide) (by decide)

/-- C9: after `Dispose`, every enumerated operation (all five getters, the
mutators `AddNew`, `Update`, `Delete`, `Clear`, plus `Contains`, `Len`,
`Map` and `Reload`) returns the NilStore error with its zero-value result
and leaves the store disposed; even a direct `LoadFromPath` cannot
re-initialize the map, so the disposed state is terminal. -/
theorem claim9_disposed_terminal (g : Gonfiguration) (fs : String → Option (List String))
    (key value dflt sep path : String) (dI : Int) (dB : Bool) :
    g.Dispose.GetParamAsString key dflt = ("", some .nilStore)
  ∧ g.Dispose.GetParamAsStringArray key dflt sep = (none, some .nilStore)
  ∧ g.Dispose.GetParamAsInt key dI = (0, some .nilStore)
  ∧ g.Dispose.GetParamAsIntArray key dflt sep = (none, some .nilStore)
  ∧ g.Dispose.GetParamAsBool key dB = (false, some .nilStore)
  ∧ g.Dispose.AddNew key value = (g.Dispose, some .nilStore)
  ∧ g.Dispose.Update key value = (g.Dispose, some .nilStore)
  ∧ g.Dispose.Delete key = (g.Dispose, some .nilStore)
  ∧ g.Dispose.Clear = (g.Dispose, some .nilStore)
  ∧ g.Dispose.Contains key = (false, some .nilStore)
  ∧ g.Dispose.Len = (0, some .nilStore)
  ∧ g.Dispose.Map = (none, some .nilStore)
  ∧ g.Dispose.Reload fs = (g.Dispose, some .nilStore)
  ∧ (g.Dispose.LoadFromPath fs path).fst.GonfigurationValues = none := by
  refine ⟨rfl, rfl, rfl, rfl, rfl, rfl, rfl, rfl, rfl, rfl, rfl, rfl, rfl, ?_⟩
  unfold Gonfiguration.LoadFromPath
  cases hf : fs path with
  | none => rfl
  | some lines =>
    have h := loadLines_isSome lines { g.Dispose with Path := path }
    cases hx : (Gonfiguration.loadLines { g.Dispose with Path := path } lines).fst.GonfigurationValues with
    | none => rfl
    | some m2 =>
      rw [hx] at h
      simp [Gonfiguration.Dispose] at h

/-- C10: `LoadFromPath` never removes or overwrites a pre-existing entry,
whatever the file contains; and whenever some accepted line of the file has
a lowercased key already present in the store, the call fails with the
DuplicateKey error. -/
theorem claim10_load_preserves_entries (fs : String → Option (List String))
    (g : Gonfiguration) (path k v : String) (h : g.lookupIn k = some v) :
    (g.LoadFromPath fs path).fst.lookupIn k = some v
  ∧ (∀ (lines : List String) (d : String), fs path = some lines → d ∈ lines →
      g.isGonfigurationLine d = true → strToLower (lineKey d) = k →
      (g.LoadFromPath fs path).snd = some .duplicateKey) := by
  constructor
  · unfold Gonfiguration.LoadFromPath
    cases hf : fs path with
    | none => exact h
    | some lines => exact loadLines_lookup_preserved lines _ k v h
  · intro lines d hf hd hacc hkey
    unfold Gonfiguration.LoadFromPath
    rw [hf]
    refine loadLines_dup lines _ d hd hacc ?_
    show (g.lookupIn (strToLower (lineKey d))).isSome = true
    rw [hkey, h]
    rfl

/-- C10 witness: an entry `a = 1` survives loading a file `["b=2"]`, and a
file line `A=2` against the same store triggers DuplicateKey. -/
theorem claim10_load_preserves_entries_witness :
    ((⟨some [("a", "1")], none, "p"⟩ : Gonfiguration).LoadFromPath
        (fun _ => some ["b=2"]) "q").fst.lookupIn "a" = some "1"
  ∧ (∀ (lines : List String) (d : String),
      (fun (_ : String) => some ["b=2"]) "q" = some lines → d ∈ lines →
      (⟨some [("a", "1")], none, "p"⟩ : Gonfiguration).isGonfigurationLine d = true →
      strToLower (lineKey d) = "a" →
      ((⟨some [("a", "1")], none, "p"⟩ : Gonfiguration).LoadFromPath
        (fun _ => some ["b=2"]) "q").snd = some .duplicateKey) :=
  claim10_load_preserves_entries (fun _ => some ["b=2"])
    ⟨some [("a", "1")], none, "p"⟩ "q" "a" "1" rfl

theorem loadFromPath_keysLower (g : Gonfiguration) (fs : String → Option (List String))
    (path : String) (h : g.keysLower = true) :
    (g.LoadFromPath fs path).fst.keysLower = true := by
  unfold Gonfiguration.LoadFromPath
  cases hf : fs path with
  | none => exact h
  | some lines => exact loadLines_keysLower lines _ h

theorem new_fields (fs : String → Option (List String)) (path : String)
    (validator : Option (String → Bool)) :
    (Gonfiguration.New fs path validator).fst.ValidateConfigLine = validator
  ∧ (Gonfiguration.New fs path validator).fst.Path = path
  ∧ (Gonfiguration.New fs path validator).fst.keysLower = true
  ∧ (Gonfiguration.New fs path validator).fst.GonfigurationValues.isSome = true := by
  unfold Gonfiguration.New Gonfiguration.LoadFromPath
  cases hf : fs path with
  | none => exact ⟨rfl, rfl, rfl, rfl⟩
  | some lines =>
    refine ⟨loadLines_validator lines _, loadLines_path lines _,
      loadLines_keysLower lines _ rfl, ?_⟩
    rw [loadLines_isSome lines _]
    rfl

theorem clear_of_new (fs : String → Option (List String)) (path : String)
    (validator : Option (String → Bool)) :
    ((Gonfiguration.New fs path validator).fst.Clear).fst
      = (⟨some [], validator, path⟩ : Gonfiguration) := by
  obtain ⟨hval, hpath, hlow, hsome⟩ := new_fields fs path validator
  obtain ⟨mN, hmN⟩ := Option.isSome_iff_exists.mp hsome
  simp only [Gonfiguration.keysLower, hmN] at hlow
  simp only [Gonfiguration.Clear, hmN, clearMap_of_keysLower mN hlow]
  rw [hval, hpath]

theorem reload_after_clear_of_new (fs : String → Option (List String)) (path : String)
    (validator : Option (String → Bool)) :
    (((Gonfiguration.New fs path validator).fst.Clear).fst).Reload fs
      = Gonfiguration.New fs path validator := by
  rw [clear_of_new fs path validator]
  rfl

/-- C2: when the file's accepted lines produce the same lowercased key
twice, `LoadFromPath` returns the DuplicateKey error and stops at the first
offending line: the final store is exactly the one built from the lines
before it, so entries parsed earlier remain (no atomicity) and the lines
after it are never processed. -/
theorem claim2_duplicate_key_load (g : Gonfiguration) (fs : String → Option (List String))
    (path : String) (l1 l2 : List String) (a d : String)
    (hfile : fs path = some (l1 ++ d :: l2))
    (hinit : g.GonfigurationValues.isSome = true)
    (ha : a ∈ l1)
    (hacca : g.isGonfigurationLine a = true)
    (haccd : g.isGonfigurationLine d = true)
    (hkey : strToLower (lineKey d) = strToLower (lineKey a))
    (hok : (Gonfiguration.loadLines { g with Path := path } l1).snd = none) :
    g.LoadFromPath fs path
      = ((Gonfiguration.loadLines { g with Path := path } l1).fst,
          some GonfigError.duplicateKey) := by
  unfold Gonfiguration.LoadFromPath
  simp only [hfile]
  rw [loadLines_append, if_pos hok]
  rw [Gonfiguration.loadLines]
  have hvalid1 : (Gonfiguration.loadLines { g with Path := path } l1).fst.ValidateConfigLine
      = g.ValidateConfigLine := loadLines_validator l1 _
  have haccd1 : (Gonfiguration.loadLines { g with Path := path } l1).fst.isGonfigurationLine d
      = true := by
    rw [isGonfigurationLine_congr _ g hvalid1]
    exact haccd
  rw [if_pos haccd1]
  have hpres : ((Gonfiguration.loadLines { g with Path := path } l1).fst.lookupIn
      (strToLower (lineKey a))).isSome = true :=
    loadLines_key_present l1 _ a ha hacca hinit hok
  have hs1 : (Gonfiguration.loadLines { g with Path := path } l1).fst.GonfigurationValues.isSome
      = true := by
    rw [loadLines_isSome l1 _]
    exact hinit
  obtain ⟨m1, hm1⟩ := Option.isSome_iff_exists.mp hs1
  have hc : ((Gonfiguration.loadLines { g with Path := path } l1).fst.Contains
      (lineKey d)).fst = true := by
    simp only [Gonfiguration.lookupIn, hm1] at hpres
    simp only [Gonfiguration.Contains, hm1, hkey]
    exact hpres
  rw [if_pos hc]

/-- C2 witness: a store loading the file `k=1`, `K=2` fails with
DuplicateKey, keeping the entry from the first line. -/
theorem claim2_duplicate_key_load_witness :
    (⟨some [], none, "x"⟩ : Gonfiguration).LoadFromPath (fun _ => some ["k=1", "K=2"]) "cfg"
      = ((Gonfiguration.loadLines
            { (⟨some [], none, "x"⟩ : Gonfiguration) with Path := "cfg" } ["k=1"]).fst,
          some GonfigError.duplicateKey) :=
  claim2_duplicate_key_load ⟨some [], none, "x"⟩ (fun _ => some ["k=1", "K=2"]) "cfg"
    ["k=1"] [] "k=1" "K=2" rfl rfl (by decide) (by decide) (by decide) (by decide) (by decide)

/-- C6 counterexample: loading a file whose lines are `a=1` and `A=2`
errors with DuplicateKey, yet the store returned by `New` holds one entry,
so it is not empty although the load errored. -/
theorem claim6_new_not_empty_counterexample :
    (Gonfiguration.New fsDup "p" none).snd = some GonfigError.duplicateKey
  ∧ (Gonfiguration.New fsDup "p" none).fst.Len = (1, none) :=
  ⟨rfl, rfl⟩

/-- C6 as amended: `New` returns the constructed store together with the
load error, and whenever the load fails because the file cannot be opened
the store is still usable and empty (its map is initialized and holds no
entry); on a DuplicateKey load error the store is usable but may retain the
entries parsed before the offending line. -/
theorem claim6_new_usable_empty_on_open_error (fs : String → Option (List String))
    (path : String) (validator : Option (String → Bool))
    (h : (Gonfiguration.New fs path validator).snd = some GonfigError.cantOpenFile) :
    (Gonfiguration.New fs path validator).fst.GonfigurationValues = some [] := by
  unfold Gonfiguration.New Gonfiguration.LoadFromPath at h ⊢
  cases hf : fs path with
  | none => simp [hf]
  | some lines =>
    simp only [hf] at h
    rcases loadLines_snd lines _ with h2 | h2 <;> rw [h2] at h <;> simp at h

/-- C6 witness: when the file cannot be opened, the store `New` returns is
initialized and empty. -/
theorem claim6_new_usable_empty_on_open_error_witness :
    (Gonfiguration.New (fun _ => none) "p" none).fst.GonfigurationValues = some [] :=
  claim6_new_usable_empty_on_open_error (fun _ => none) "p" none rfl

/-- C3: every key present in the store's map is lowercase, and this
invariant is preserved by every operation (`AddNew`, `Update`, `Delete`,
`Clear`, `LoadFromPath`, `Reload`, and `New` unconditionally); moreover
every key-taking operation lowercases its key argument before consulting
the map, so access is case-insensitive: each call equals the same call on
the pre-lowercased key. -/
theorem claim3_lowercase_invariant (g : Gonfiguration) (fs : String → Option (List String))
    (path key value dflt sep : String) (validator : Option (String → Bool))
    (dI : Int) (dB : Bool) (h : g.keysLower = true) :
    (g.AddNew key value).fst.keysLower = true
  ∧ (g.Update key value).fst.keysLower = true
  ∧ (g.Delete key).fst.keysLower = true
  ∧ g.Clear.fst.keysLower = true
  ∧ (g.LoadFromPath fs path).fst.keysLower = true
  ∧ (g.Reload fs).fst.keysLower = true
  ∧ (Gonfiguration.New fs path validator).fst.keysLower = true
  ∧ g.GetParamAsString key dflt = g.GetParamAsString (strToLower key) dflt
  ∧ g.GetParamAsStringArray key dflt sep = g.GetParamAsStringArray (strToLower key) dflt sep
  ∧ g.GetParamAsInt key dI = g.GetParamAsInt (strToLower key) dI
  ∧ g.GetParamAsIntArray key dflt sep = g.GetParamAsIntArray (strToLower key) dflt sep
  ∧ g.GetParamAsBool key dB = g.GetParamAsBool (strToLower key) dB
  ∧ g.Contains key = g.Contains (strToLower key)
  ∧ g.Delete key = g.Delete (strToLower key)
  ∧ g.AddNew key value = g.AddNew (strToLower key) value
  ∧ g.Update key value = g.Update (strToLower key) value := by
  refine ⟨addNew_keysLower g key value h, ?_, ?_, ?_,
    loadFromPath_keysLower g fs path h, ?_, (new_fields fs path validator).2.2.1,
    ?_, ?_, ?_, ?_, ?_, ?_, ?_, ?_, ?_⟩
  · cases hg : g.GonfigurationValues with
    | none => simp [Gonfiguration.Update, hg, Gonfiguration.keysLower]
    | some m =>
      simp only [Gonfiguration.keysLower, hg] at h
      simp only [Gonfiguration.Update, hg, Gonfiguration.keysLower]
      exact mapKeysLower_set m _ value h (strToLower_idem key)
  · cases hg : g.GonfigurationValues with
    | none => simp [Gonfiguration.Delete, hg, Gonfiguration.keysLower]
    | some m =>
      simp only [Gonfiguration.keysLower, hg] at h
      by_cases hc : (g.Contains key).fst
      · simp only [Gonfiguration.Delete, hg, hc, if_true, Gonfiguration.keysLower]
        exact mapKeysLower_erase m _ h
      · simp [Gonfiguration.Delete, hg, hc, Gonfiguration.keysLower]
        exact h
  · cases hg : g.GonfigurationValues with
    | none => simp [Gonfiguration.Clear, hg, Gonfiguration.keysLower]
    | some m =>
      simp only [Gonfiguration.keysLower, hg] at h
      simp only [Gonfiguration.Clear, hg, Gonfiguration.keysLower]
      exact mapKeysLower_clearMap m h
  · cases hg : g.GonfigurationValues with
    | none => simp [Gonfiguration.Reload, hg, Gonfiguration.keysLower]
    | some m =>
      simp only [Gonfiguration.keysLower, hg] at h
      simp only [Gonfiguration.Reload, hg]
      apply loadFromPath_keysLower
      simp only [Gonfiguration.Clear, hg, Gonfiguration.keysLower]
      exact mapKeysLower_clearMap m h
  · simp [Gonfiguration.GetParamAsString, strToLower_idem]
  · simp [Gonfiguration.GetParamAsStringArray, strToLower_idem]
  · simp [Gonfiguration.GetParamAsInt, strToLower_idem]
  · simp [Gonfiguration.GetParamAsIntArray, Gonfiguration.GetParamAsStringArray, strToLower_idem]
  · simp [Gonfiguration.GetParamAsBool, strToLower_idem]
  · simp [Gonfiguration.Contains, strToLower_idem]
  · simp [Gonfiguration.Delete, Gonfiguration.Contains, strToLower_idem]
  · simp [Gonfiguration.AddNew, Gonfiguration.Contains, strToLower_idem]
  · simp [Gonfiguration.Update, strToLower_idem]

/-- C3 witness: the invariant and the case-insensitive access equalities at
a concrete one-entry store and key `K`. -/
theorem claim3_lowercase_invariant_witness :
    ((⟨some [("k", "v")], none, "p"⟩ : Gonfiguration).AddNew "K" "w").fst.keysLower = true
  ∧ ((⟨some [("k", "v")], none, "p"⟩ : Gonfiguration).Update "K" "w").fst.keysLower = true
  ∧ ((⟨some [("k", "v")], none, "p"⟩ : Gonfiguration).Delete "K").fst.keysLower = true
  ∧ (⟨some [("k", "v")], none, "p"⟩ : Gonfiguration).Clear.fst.keysLower = true
  ∧ ((⟨some [("k", "v")], none, "p"⟩ : Gonfiguration).LoadFromPath
      (fun _ => some ["m=1"]) "q").fst.keysLower = true
  ∧ ((⟨some [("k", "v")], none, "p"⟩ : Gonfiguration).Reload
      (fun _ => some ["m=1"])).fst.keysLower = true
  ∧ (Gonfiguration.New (fun _ => some ["m=1"]) "q" none).fst.keysLower = true
  ∧ (⟨some [("k", "v")], none, "p"⟩ : Gonfiguration).GetParamAsString "K" "d"
      = (⟨some [("k", "v")], none, "p"⟩ : Gonfiguration).GetParamAsString (strToLower "K") "d"
  ∧ (⟨some [("k", "v")], none, "p"⟩ : Gonfiguration).GetParamAsStringArray "K" "d" ","
      = (⟨some [("k", "v")], none, "p"⟩ : Gonfiguration).GetParamAsStringArray
          (strToLower "K") "d" ","
  ∧ (⟨some [("k", "v")], none, "p"⟩ : Gonfiguration).GetParamAsInt "K" 7
      = (⟨some [("k", "v")], none, "p"⟩ : Gonfiguration).GetParamAsInt (strToLower "K") 7
  ∧ (⟨some [("k", "v")], none, "p"⟩ : Gonfiguration).GetParamAsIntArray "K" "d" ","
      = (⟨some [("k", "v")], none, "p"⟩ : Gonfiguration).GetParamAsIntArray
          (strToLower "K") "d" ","
  ∧ (⟨some [("k", "v")], none, "p"⟩ : Gonfiguration).GetParamAsBool "K" true
      = (⟨some [("k", "v")], none, "p"⟩ : Gonfiguration).GetParamAsBool (strToLower "K") true
  ∧ (⟨some [("k", "v")], none, "p"⟩ : Gonfiguration).Contains "K"
      = (⟨some [("k", "v")], none, "p"⟩ : Gonfiguration).Contains (strToLower "K")
  ∧ (⟨some [("k", "v")], none, "p"⟩ : Gonfiguration).Delete "K"
      = (⟨some [("k", "v")], none, "p"⟩ : Gonfiguration).Delete (strToLower "K")
  ∧ (⟨some [("k", "v")], none, "p"⟩ : Gonfiguration).AddNew "K" "w"
      = (⟨some [("k", "v")], none, "p"⟩ : Gonfiguration).AddNew (strToLower "K") "w"
  ∧ (⟨some [("k", "v")], none, "p"⟩ : Gonfiguration).Update "K" "w"
      = (⟨some [("k", "v")], none, "p"⟩ : Gonfiguration).Update (strToLower "K") "w" :=
  claim3_lowercase_invariant ⟨some [("k", "v")], none, "p"⟩ (fun _ => some ["m=1"])
    "q" "K" "w" "d" "," none 7 true rfl

/-- C8: on every initialized store `Reload` returns exactly the state and
result of the spec's sequence `Clear(); LoadFromPath(sourcePath)`; and for
a store built by `New`, `Clear` then `Len` gives 0 while a subsequent
`Reload` restores the entry count the original load produced. -/
theorem claim8_reload_equiv_clear_load (fs : String → Option (List String))
    (g : Gonfiguration) (path : String) (validator : Option (String → Bool))
    (h : g.GonfigurationValues.isSome = true) :
    g.Reload fs = g.clearThenLoad fs
  ∧ ((Gonfiguration.New fs path validator).fst.Clear).fst.Len = (0, none)
  ∧ ((((Gonfiguration.New fs path validator).fst.Clear).fst).Reload fs).fst.Len
      = (Gonfiguration.New fs path validator).fst.Len := by
  refine ⟨?_, ?_, ?_⟩
  · obtain ⟨m, hm⟩ := Option.isSome_iff_exists.mp h
    simp only [Gonfiguration.Reload, Gonfiguration.clearThenLoad, hm]
  · rw [clear_of_new fs path validator]
    rfl
  · rw [reload_after_clear_of_new fs path validator]

/-- C8 witness: the equivalence and the clear/reload counts at a concrete
store and a one-line file. -/
theorem claim8_reload_equiv_clear_load_witness :
    (⟨some [("a", "1")], none, "q"⟩ : Gonfiguration).Reload (fun _ => some ["k=1"])
      = (⟨some [("a", "1")], none, "q"⟩ : Gonfiguration).clearThenLoad (fun _ => some ["k=1"])
  ∧ ((Gonfiguration.New (fun _ => some ["k=1"]) "p" none).fst.Clear).fst.Len = (0, none)
  ∧ ((((Gonfiguration.New (fun _ => some ["k=1"]) "p" none).fst.Clear).fst).Reload
        (fun _ => some ["k=1"])).fst.Len
      = (Gonfiguration.New (fun _ => some ["k=1"]) "p" none).fst.Len :=
  claim8_reload_equiv_clear_load (fun _ => some ["k=1"]) ⟨some [("a", "1")], none, "q"⟩
    "p" none rfl
